import Mathlib

set_option linter.unusedVariables false
set_option maxRecDepth 8000

/-!
Shallow embedding of the OHLC-generation core of this repository
(src/random_ohlc.py, driven by src/app.py `random_case`).

Modelling conventions:
* prices are rationals (`ℚ`); machine floats carry no overflow in the
  ranges this program uses, and `round(_, d)` is modelled exactly as
  round-half-to-even on `x * 10^d`;
* an IEEE NaN produced by a `0/0` division is modelled by `none` in an
  `Option ℚ` field;
* a Python exception raised by a library call is modelled by
  `Except PyErr`;
* a timestamp is the number of minutes since 2000-01-01 00:00 (the
  hard-coded `start_date` of `__create_dataframe`); 2000-01-01 was a
  Saturday, so a day number `d` is a Sunday exactly when `d % 7 = 1`;
* the pseudo-random source is made explicit: every value the code draws
  from `np.random` becomes a parameter of the embedded function.
-/

/-- One OHLC candle: the four float columns of the `DataFrame` rows built by
`random_ohlc.py`.  The field `open_` stands for the `open` column (`open` is
a Lean keyword). -/
structure Candle where
  open_ : ℚ
  high : ℚ
  low : ℚ
  close : ℚ
  deriving DecidableEq

/-- A candle after `normalize_ohlc_data`: each column is a float that may be
NaN (`none`), since that step divides by `max - min` without any guard. -/
structure FCandle where
  open_ : Option ℚ
  high : Option ℚ
  low : Option ℚ
  close : Option ℚ
  deriving DecidableEq

/-- Round-half-to-even to an integer: the rounding used by `numpy.round` /
`pandas.DataFrame.round` / Python `round`. -/
def roundHalfEven (x : ℚ) : ℤ :=
  if Int.fract x < 1/2 then ⌊x⌋
  else if 1/2 < Int.fract x then ⌊x⌋ + 1
  else if ⌊x⌋ % 2 = 0 then ⌊x⌋ else ⌊x⌋ + 1

/-- `round(x, d)` of numpy/pandas: round-half-to-even at `d` decimal places. -/
def npRound (d : ℕ) (x : ℚ) : ℚ :=
  (roundHalfEven (x * 10 ^ d) : ℚ) / 10 ^ d

/-- Maximum of a list of floats (`np.max` on a non-empty column); the `[]`
case never occurs in the pipeline (`np.max` of an empty frame raises). -/
def qmax : List ℚ → ℚ
  | [] => 0
  | x :: xs => xs.foldl max x

/-- Minimum of a list of floats (`np.min` on a non-empty column). -/
def qmin : List ℚ → ℚ
  | [] => 0
  | x :: xs => xs.foldl min x

/-- All open/high/low/close values of a series, the pool over which
`normalize_ohlc_data` takes its global `_max` / `_min` (the maximum of the
four column maxima is the maximum over this pool, and dually). -/
def ohlcValues (s : List Candle) : List ℚ :=
  s.flatMap fun c => [c.open_, c.high, c.low, c.close]

/-- A Python exception escaping a library call. -/
inductive PyErr
  | invalidArgument
  deriving DecidableEq

/-- `np.min(a, axis, out)` called with three Series as in
`__correct_lowcolumn_error` (`np.min(df["open"], df["high"], df["close"])`):
the second Series lands in the positional `axis` parameter and the third in
`out`, neither of which accepts a Series, so the call raises
(`pandas` rejects a non-`None` `out` and a Series `axis`) instead of
computing any minimum.  The scalar result type records what the surrounding
`np.where` expression would broadcast had the call returned. -/
def npMinSeriesAxisOut (a axis out : List ℚ) : Except PyErr ℚ :=
  .error .invalidArgument

/-- `np.max(a, axis, out)` called with three Series as in
`__correct_highcolumn_error`; raises exactly like `npMinSeriesAxisOut`. -/
def npMaxSeriesAxisOut (a axis out : List ℚ) : Except PyErr ℚ :=
  .error .invalidArgument

/-- `__correct_lowcolumn_error` as written: `np.where(mask, np.min(open,
high, close), low)`.  Python evaluates the second argument eagerly, so the
whole call raises before `np.where` runs. -/
def correct_lowcolumn_error (df : List Candle) : Except PyErr (List ℚ) := do
  let m ← npMinSeriesAxisOut (df.map Candle.open_) (df.map Candle.high)
      (df.map Candle.close)
  pure (df.map fun c =>
    if c.low > c.open_ ∨ c.low > c.high ∨ c.low > c.close then m else c.low)

/-- `__correct_highcolumn_error` as written; raises like
`correct_lowcolumn_error`. -/
def correct_highcolumn_error (df : List Candle) : Except PyErr (List ℚ) := do
  let m ← npMaxSeriesAxisOut (df.map Candle.open_) (df.map Candle.low)
      (df.map Candle.close)
  pure (df.map fun c =>
    if c.high < c.open_ ∨ c.high < c.low ∨ c.high < c.close then m else c.high)

/-- Modelled from the spec: the low-column repair that
`__correct_lowcolumn_error` is documented to perform (its comments read
"get all the rows where the low cell is not the lowest value" / "assign the
minimum value"), i.e. `np.where(mask, elementwise min(open, high, close),
low)`; the code's `np.min(open, high, close)` call cannot compute this (see
`npMinSeriesAxisOut`). -/
def correct_lowcolumn_intended (df : List Candle) : List Candle :=
  df.map fun c =>
    if c.low > c.open_ ∨ c.low > c.high ∨ c.low > c.close then
      { c with low := min c.open_ (min c.high c.close) }
    else c

/-- Modelled from the spec: the high-column repair that
`__correct_highcolumn_error` is documented to perform. -/
def correct_highcolumn_intended (df : List Candle) : List Candle :=
  df.map fun c =>
    if c.high < c.open_ ∨ c.high < c.low ∨ c.high < c.close then
      { c with high := max c.open_ (max c.low c.close) }
    else c

/-- The corrector pass in the order `__connect_open_close_candles` applies
it: first the low column is repaired, then the high column is repaired on
the frame already carrying the repaired lows. -/
def ohlc_corrector_intended (df : List Candle) : List Candle :=
  correct_highcolumn_intended (correct_lowcolumn_intended df)

/-- The per-candle contract stated by the spec for the OHLC corrector:
replace `low` by `min(open, high, close)` exactly when
`low > min(open, high, close)`, then replace `high` by
`max(open, low, close)` (over the repaired low) exactly when it is
exceeded.  Written from the spec's words, to be compared with
`ohlc_corrector_intended`. -/
def corrector_contract (c : Candle) : Candle :=
  let m := min c.open_ (min c.high c.close)
  let lo := if c.low > m then m else c.low
  let M := max c.open_ (max lo c.close)
  let hi := if c.high < M then M else c.high
  ⟨c.open_, hi, lo, c.close⟩

/-- `close.shift(1).fillna(0)`: the close column shifted forward one row,
with the hole at row 0 filled by `0`. -/
def shifted_close (s : List Candle) : List ℚ :=
  (0 : ℚ) :: (s.map Candle.close).dropLast

/-- Overwrite the open column with the given values (row by row). -/
def set_opens (s : List Candle) (os : List ℚ) : List Candle :=
  s.zipWith (fun c o => { c with open_ := o }) os

/-- Overwrite the low column with the given values. -/
def set_lows (s : List Candle) (ls : List ℚ) : List Candle :=
  s.zipWith (fun c l => { c with low := l }) ls

/-- Overwrite the high column with the given values. -/
def set_highs (s : List Candle) (hs : List ℚ) : List Candle :=
  s.zipWith (fun c h => { c with high := h }) hs

/-- The connection assignment of `__connect_open_close_candles`
(random_ohlc.py lines 319-321): `open := close.shift(1).fillna(0)`, then
`at[0, "open"] := start_price`.  At this point of the pipeline the frame
has a `0..n-1` integer index, so label `0` is the first row; the pipeline
never reaches this step with an empty frame. -/
def connect_open_close_candles (start_price : ℚ) (s : List Candle) :
    List Candle :=
  match set_opens s (shifted_close s) with
  | [] => []
  | c :: rest => { c with open_ := start_price } :: rest

/-- Partial sums of the increment array after `steps[0] = 0` is forced:
`walk sp steps i` is `start_price + np.cumsum(steps)[i]` with the first
step zeroed. -/
def walk (sp : ℚ) (steps : ℕ → ℚ) : ℕ → ℚ
  | 0 => sp
  | i + 1 => walk sp steps i + steps (i + 1)

/-- The `i`-th price tick of `__generate_random_df`:
`np.abs((start_price + np.cumsum(steps)).round(decimals=6))[i]`. -/
def walk_tick (sp : ℚ) (steps : ℕ → ℚ) (i : ℕ) : ℚ :=
  |npRound 6 (walk sp steps i)|

/-- `__generate_random_df(num_bars, "1min", start_price, _)` with the drawn
increment array given explicitly as `steps`: ticks spaced one minute apart
resampled to `1min` OHLC put exactly one tick in each bin, so every candle
has all four fields equal to its tick.  (The volatile-period regeneration is
the only caller that uses frequency `"1min"`.) -/
def generate_random_df_1min (num_bars : ℕ) (sp : ℚ) (steps : ℕ → ℚ) :
    List Candle :=
  (List.range num_bars).map fun i =>
    let p := walk_tick sp steps i
    ⟨p, p, p, p⟩

/-- `df.loc[starti:endi, col] = new[col].values` for all four columns: the
label slice of the integer index is inclusive at both ends, and row
`starti + j` receives row `j` of the replacement frame. -/
def loc_set_range (s : List Candle) (starti endi : ℕ) (new : List Candle) :
    List Candle :=
  s.mapIdx fun i c =>
    if starti ≤ i ∧ i ≤ endi then new.getD (i - starti) c else c

/-- The splice loop of `__create_volatile_periods`: each selected range
`(starti, endi)` (already masked and clipped in bounds by the vectorised
code above the loop) is overwritten by a freshly generated sub-path of
`endi - starti + 1` one-minute bars started at `self.start_price`.  The
random draws are explicit: each range carries the increment array drawn for
it (the volatility scale factor is already inside those draws). -/
def create_volatile_periods (sp : ℚ)
    (ranges : List ((ℕ × ℕ) × (ℕ → ℚ))) (s : List Candle) : List Candle :=
  ranges.foldl
    (fun acc r =>
      loc_set_range acc r.1.1 r.1.2
        (generate_random_df_1min (r.1.2 - r.1.1 + 1) sp r.2))
    s

/-- `create_realistic_ohlc`: volatile periods, then the connection step,
then the two corrector passes of `__connect_open_close_candles`
(`low := __correct_lowcolumn_error(df)` followed by
`high := __correct_highcolumn_error(df)` on the updated frame).  The
plotting side effects are irrelevant to the data and not modelled. -/
def create_realistic_ohlc (sp : ℚ)
    (ranges : List ((ℕ × ℕ) × (ℕ → ℚ))) (s : List Candle) :
    Except PyErr (List Candle) := do
  let s1 := create_volatile_periods sp ranges s
  let s2 := connect_open_close_candles sp s1
  let lows ← correct_lowcolumn_error s2
  let s3 := set_lows s2 lows
  let highs ← correct_highcolumn_error s3
  pure (set_highs s3 highs)

/-- Float division as it appears in `normalize_ohlc_data`: when the divisor
`_max - _min` is zero the numerator is zero as well (every value lies
between `_min` and `_max`), so IEEE evaluates `0/0 = NaN`; `none` models
that NaN. -/
def pdiv (a b : ℚ) : Option ℚ :=
  if b = 0 then none else some (a / b)

/-- `normalize_ohlc_data` with the drawn `random_multiplier = m`
(`np.random.randint(9, 999)`, so `9 ≤ m ≤ 998`): every column value is
mapped through `round((v - _min) / (_max - _min) * m, 4)`. -/
def normalize_ohlc_data (m : ℕ) (s : List Candle) : List FCandle :=
  let mx := qmax (ohlcValues s)
  let mn := qmin (ohlcValues s)
  let f : ℚ → Option ℚ := fun v =>
    (pdiv (v - mn) (mx - mn)).map fun x => npRound 4 (x * (m : ℚ))
  s.map fun c => ⟨f c.open_, f c.high, f c.low, f c.close⟩

/-- `np.random.randint(low, high)` draws uniformly from
`{low, ..., high - 1}` (the upper bound is exclusive); the draw is made
explicit by reducing an arbitrary state value `u` of the random source
modulo the size of that set. -/
def np_random_randint (low high u : ℕ) : ℕ :=
  low + u % (high - low)

/-- The three increment distributions held by
`self.__distribution_functions`. -/
inductive DistKind
  | normal
  | laplace
  | logistic
  deriving DecidableEq

/-- The dictionary `__distribution_functions`:
`{1: np.random.normal, 2: np.random.laplace, 3: np.random.logistic}`
(`.get` on a missing key yields `None`). -/
def distribution_functions : ℕ → Option DistKind
  | 1 => some .normal
  | 2 => some .laplace
  | 3 => some .logistic
  | _ => none

/-- The distribution selection of `__generate_random_df`:
`self.__distribution_functions.get(np.random.randint(1,
len(self.__distribution_functions)))` where the dictionary has three
entries, i.e. `randint(1, 3)`. -/
def distribution_choice (u : ℕ) : Option DistKind :=
  distribution_functions (np_random_randint 1 3 u)

/-- Aggregation of one resampling bin under
`agg_dict = {open: first, high: max, low: min, close: last}`; an empty bin
yields a NaN row (`none`). -/
def aggBin : List Candle → Option Candle
  | [] => none
  | c :: cs =>
    some ⟨c.open_, qmax ((c :: cs).map Candle.high),
      qmin ((c :: cs).map Candle.low), ((c :: cs).getLastD c).close⟩

/-- A resampling rule of `pd.DataFrame.resample(timeframe, label="right",
closed="right")`: `label t` is the (right) label of the bin a timestamp `t`
falls into, and `next` steps from one bin label to the following one. -/
structure Grid where
  label : ℕ → ℕ
  next : ℕ → ℕ

/-- Fixed-duration resampling bins (`5min` … `3D`).  All series of this
pipeline start at 2000-01-01 00:00, so the `origin="start_day"` bin edges
are the multiples of the bin length `g` (in minutes); with
`closed="right"`/`label="right"` a timestamp `t` belongs to the bin
labelled `g * ⌈t / g⌉` (a timestamp sitting exactly on an edge gets its
own bin, labelled by itself). -/
def tickGrid (g : ℕ) : Grid :=
  ⟨fun t => g * ((t + (g - 1)) / g), fun t => t + g⟩

/-- The day number (days since 2000-01-01) of the first Sunday on or after
day `d`; 2000-01-01 was a Saturday, so Sundays are the days `≡ 1 (mod 7)`. -/
def sundayOnOrAfter (d : ℕ) : ℕ :=
  d + (8 - d % 7) % 7

/-- `1W` resampling bins: pandas `W-SUN` periods run Monday..Sunday and are
labelled by their Sunday at midnight, so a timestamp belongs to the week
ending on the Sunday on or after its own day. -/
def weekGrid : Grid :=
  ⟨fun t => 1440 * sundayOnOrAfter (t / 1440), fun t => t + 10080⟩

/-- Gregorian leap year. -/
def isLeap (y : ℕ) : Bool :=
  (y % 4 == 0 && y % 100 != 0) || y % 400 == 0

/-- Length of month `m` of year `y`. -/
def monthLen (y m : ℕ) : ℕ :=
  if m = 2 then (if isLeap y then 29 else 28)
  else if m = 4 ∨ m = 6 ∨ m = 9 ∨ m = 11 then 30
  else 31

/-- Walk the calendar month by month from 2000-01-01 until the month
containing day `d` is found, returning the day number of that month's last
day; `fuel` bounds the walk (every month has at least 28 days, so
`fuel = d + 1` months always suffice and the fuel-exhausted branch is
unreachable from `monthEndDay`). -/
def monthEndAux : ℕ → ℕ → ℕ → ℕ → ℕ → ℕ
  | 0, _, _, first, _ => first
  | fuel + 1, y, m, first, d =>
    if d < first + monthLen y m then first + monthLen y m - 1
    else
      monthEndAux fuel (if m = 12 then y + 1 else y)
        (if m = 12 then 1 else m + 1) (first + monthLen y m) d

/-- Day number of the last day of the calendar month containing day `d`. -/
def monthEndDay (d : ℕ) : ℕ :=
  monthEndAux (d + 1) 2000 1 0 d

/-- `1M` resampling bins: pandas month-end periods, labelled by the last
calendar day of the month at midnight. -/
def monthGrid : Grid :=
  ⟨fun t => 1440 * monthEndDay (t / 1440), fun t => 1440 * monthEndDay (t / 1440 + 1)⟩

/-- The ascending list of bin labels from `t` to `stop` (the labels of the
first and last input timestamps); pandas materialises every bin in this
range, including empty ones.  `fuel` bounds the iteration; the caller
passes `stop - t`, which suffices because labels strictly increase by at
least one. -/
def gridIndex (nxt : ℕ → ℕ) : ℕ → ℕ → ℕ → List ℕ
  | 0, t, _ => [t]
  | fuel + 1, t, stop =>
    if t < stop then t :: gridIndex nxt fuel (nxt t) stop else [t]

/-- A timestamped series: the rows of a resampled frame, each an `Option`
candle (`none` is a NaN row from an empty bin). -/
abbrev TSeries := List (ℕ × Option Candle)

/-- The candles of `s` falling in the bin labelled `lb` (NaN rows are
skipped, as the `first`/`max`/`min`/`last` aggregations skip NaN). -/
def binMembers (G : Grid) (s : TSeries) (lb : ℕ) : List Candle :=
  (s.filter fun q => G.label q.1 = lb).filterMap Prod.snd

/-- `__downsample_ohlc_data(timeframe, df)`:
`df.resample(timeframe, label="right", closed="right").aggregate(agg_dict)`.
One output row per bin label between the labels of the first and last input
timestamps, each aggregated by `aggBin`. -/
def downsample_ohlc_data (G : Grid) (s : TSeries) : TSeries :=
  match s with
  | [] => []
  | p :: ps =>
    let a := G.label p.1
    let b := G.label (((p :: ps).getLastD p).1)
    (gridIndex G.next (b - a) a b).map fun lb =>
      (lb, aggBin (binMembers G (p :: ps) lb))

/-- The timeframe ladder of `__resampled_data` / `__create_bars_table`, in
its iteration order. -/
inductive Timeframe
  | m1
  | m5
  | m15
  | m30
  | h1
  | h2
  | h4
  | d1
  | d3
  | w1
  | mo1
  deriving DecidableEq

/-- The predecessor of each ladder entry: `prev_timeframe` starts at
`"1min"` and is updated to the timeframe just processed, so every entry is
resampled from the immediately preceding (finer) one. -/
def tfPrev : Timeframe → Timeframe
  | .m1 => .m1
  | .m5 => .m1
  | .m15 => .m5
  | .m30 => .m15
  | .h1 => .m30
  | .h2 => .h1
  | .h4 => .h2
  | .d1 => .h4
  | .d3 => .d1
  | .w1 => .d3
  | .mo1 => .w1

/-- The resampling rule of each ladder entry. -/
def tfGrid : Timeframe → Grid
  | .m1 => tickGrid 1
  | .m5 => tickGrid 5
  | .m15 => tickGrid 15
  | .m30 => tickGrid 30
  | .h1 => tickGrid 60
  | .h2 => tickGrid 120
  | .h4 => tickGrid 240
  | .d1 => tickGrid 1440
  | .d3 => tickGrid 4320
  | .w1 => weekGrid
  | .mo1 => monthGrid

/-- `__resampled_data["1min"] = self.__df_1min`. -/
def resampled_1min (base : TSeries) : TSeries := base

/-- `__resampled_data["5min"]`, resampled from the 1min entry. -/
def resampled_5min (base : TSeries) : TSeries :=
  downsample_ohlc_data (tfGrid .m5) (resampled_1min base)

/-- `__resampled_data["15min"]`, resampled from the 5min entry. -/
def resampled_15min (base : TSeries) : TSeries :=
  downsample_ohlc_data (tfGrid .m15) (resampled_5min base)

/-- `__resampled_data["30min"]`, resampled from the 15min entry. -/
def resampled_30min (base : TSeries) : TSeries :=
  downsample_ohlc_data (tfGrid .m30) (resampled_15min base)

/-- `__resampled_data["1H"]`, resampled from the 30min entry. -/
def resampled_1H (base : TSeries) : TSeries :=
  downsample_ohlc_data (tfGrid .h1) (resampled_30min base)

/-- `__resampled_data["2H"]`, resampled from the 1H entry. -/
def resampled_2H (base : TSeries) : TSeries :=
  downsample_ohlc_data (tfGrid .h2) (resampled_1H base)

/-- `__resampled_data["4H"]`, resampled from the 2H entry. -/
def resampled_4H (base : TSeries) : TSeries :=
  downsample_ohlc_data (tfGrid .h4) (resampled_2H base)

/-- `__resampled_data["1D"]`, resampled from the 4H entry. -/
def resampled_1D (base : TSeries) : TSeries :=
  downsample_ohlc_data (tfGrid .d1) (resampled_4H base)

/-- `__resampled_data["3D"]`, resampled from the 1D entry. -/
def resampled_3D (base : TSeries) : TSeries :=
  downsample_ohlc_data (tfGrid .d3) (resampled_1D base)

/-- `__resampled_data["1W"]`, resampled from the 3D entry. -/
def resampled_1W (base : TSeries) : TSeries :=
  downsample_ohlc_data (tfGrid .w1) (resampled_3D base)

/-- `__resampled_data["1M"]`, resampled from the 1W entry. -/
def resampled_1M (base : TSeries) : TSeries :=
  downsample_ohlc_data (tfGrid .mo1) (resampled_1W base)

/-- `resample_timeframes`: the finalized family of resampled series, one
entry per ladder timeframe. -/
def resample_timeframes (base : TSeries) : Timeframe → TSeries
  | .m1 => resampled_1min base
  | .m5 => resampled_5min base
  | .m15 => resampled_15min base
  | .m30 => resampled_30min base
  | .h1 => resampled_1H base
  | .h2 => resampled_2H base
  | .h4 => resampled_4H base
  | .d1 => resampled_1D base
  | .d3 => resampled_3D base
  | .w1 => resampled_1W base
  | .mo1 => resampled_1M base

/-- Modelled from the spec: `constants.constants` is not under src/; the
spec fixes the base resolution bookkeeping (`total_days * 1440` one-minute
bars, one day of 1-second ticks per `SECONDS_IN_1DAY`), giving the usual
`SECONDS_IN_1DAY = 86400`. -/
def SECONDS_IN_1DAY : ℕ := 86400

/-- The timestamps (in minutes) of the base 1-minute frame built by
`generate_random_df(total_days * SECONDS_IN_1DAY, "1S", ...)`: `num_secs`
one-second ticks from 2000-01-01 00:00 resampled by
`.resample("1min").ohlc()` (default left-closed/left-labelled bins) give
one candle per started minute. -/
def base_1min_index (num_secs : ℕ) : List ℕ :=
  List.range ((num_secs + 59) / 60)

/-- A base series with the index of a `total_days = 120` run (the values
are irrelevant to the length claims; a constant candle is used). -/
def df_1min_120 : TSeries :=
  (base_1min_index (120 * SECONDS_IN_1DAY)).map fun t =>
    (t, some ⟨1, 1, 1, 1⟩)

/-! ## Helper lemmas -/

/-- The intended corrector pass is exactly the per-candle contract the spec
states for it. -/
theorem ohlc_corrector_intended_eq_contract (s : List Candle) :
    ohlc_corrector_intended s = s.map corrector_contract := by
  unfold ohlc_corrector_intended correct_lowcolumn_intended
    correct_highcolumn_intended
  rw [List.map_map]
  refine List.map_congr_left fun c _ => ?_
  simp only [Function.comp_apply, corrector_contract, gt_iff_lt]
  by_cases h1 : c.open_ < c.low ∨ c.high < c.low ∨ c.close < c.low
  · have hm : min c.open_ (min c.high c.close) < c.low := by
      rw [min_lt_iff, min_lt_iff]; tauto
    simp only [if_pos h1, if_pos hm]
    by_cases h2 : c.high < c.open_ ∨ c.high < min c.open_ (min c.high c.close) ∨
        c.high < c.close
    · have hM : c.high < max c.open_ (max (min c.open_ (min c.high c.close)) c.close) := by
        rw [lt_max_iff, lt_max_iff]; tauto
      simp only [if_pos h2, if_pos hM]
    · have hM : ¬ c.high < max c.open_ (max (min c.open_ (min c.high c.close)) c.close) := by
        rw [lt_max_iff, lt_max_iff]; tauto
      simp only [if_neg h2, if_neg hM]
  · have hm : ¬ min c.open_ (min c.high c.close) < c.low := by
      rw [min_lt_iff, min_lt_iff]; tauto
    simp only [if_neg h1, if_neg hm]
    by_cases h2 : c.high < c.open_ ∨ c.high < c.low ∨ c.high < c.close
    · have hM : c.high < max c.open_ (max c.low c.close) := by
        rw [lt_max_iff, lt_max_iff]; tauto
      simp only [if_pos h2, if_pos hM]
    · have hM : ¬ c.high < max c.open_ (max c.low c.close) := by
        rw [lt_max_iff, lt_max_iff]; tauto
      simp only [if_neg h2, if_neg hM]

/-- The contract's output always satisfies the full OHLC ordering
invariant (including `low ≤ high`). -/
theorem corrector_contract_establishes_invariant (c : Candle) :
    (corrector_contract c).low ≤ (corrector_contract c).open_ ∧
    (corrector_contract c).low ≤ (corrector_contract c).high ∧
    (corrector_contract c).low ≤ (corrector_contract c).close ∧
    (corrector_contract c).open_ ≤ (corrector_contract c).high ∧
    (corrector_contract c).close ≤ (corrector_contract c).high := by
  obtain ⟨o, h, l, cl⟩ := c
  simp only [corrector_contract]
  split_ifs <;>
    refine ⟨?_, ?_, ?_, ?_, ?_⟩ <;>
    simp_all [not_lt, le_min_iff, min_le_iff, max_le_iff, le_max_iff,
      min_lt_iff, lt_max_iff]

/-- The contract does not move a candle that already satisfies the
invariant. -/
theorem corrector_contract_fixed (c : Candle)
    (h1 : c.low ≤ c.open_) (h2 : c.low ≤ c.high) (h3 : c.low ≤ c.close)
    (h4 : c.open_ ≤ c.high) (h5 : c.close ≤ c.high) :
    corrector_contract c = c := by
  obtain ⟨o, hh, l, cl⟩ := c
  dsimp only at h1 h2 h3 h4 h5
  have hA : ¬ (l > min o (min hh cl)) := by
    simp only [gt_iff_lt, not_lt, le_min_iff]
    exact ⟨h1, h2, h3⟩
  have hB : ¬ (hh < max o (max l cl)) := by
    simp only [not_lt, max_le_iff]
    exact ⟨h4, h2, h5⟩
  simp only [corrector_contract]
  rw [if_neg hA, if_neg hB]

/-- Applying the contract twice is the same as applying it once. -/
theorem corrector_contract_idem (c : Candle) :
    corrector_contract (corrector_contract c) = corrector_contract c := by
  obtain ⟨hl, hh, hc, ho, hcl⟩ := corrector_contract_establishes_invariant c
  exact corrector_contract_fixed _ hl hh hc ho hcl

/-! ## Claim theorems: the OHLC corrector (C1, C2, C3) -/

/-- Claim C1: the OHLC ordering invariant on the finalized SeriesFamily.
The pipeline as coded cannot return a family at all: `create_realistic_ohlc`
raises inside `__correct_lowcolumn_error` on every run (first conjunct shows
a concrete run).  The second conjunct shows the claim matches the intent:
the corrector pass the code documents would establish
`low ≤ min(open, close)` and `max(open, close) ≤ high` for every candle. -/
theorem c1_pipeline_raises_before_any_family_is_returned :
    create_realistic_ohlc 100000 [] [⟨1, 2, 0, 1⟩] =
      .error .invalidArgument ∧
    ∀ s : List Candle, (ohlc_corrector_intended s).Forall fun c =>
      c.low ≤ min c.open_ c.close ∧ max c.open_ c.close ≤ c.high := by
  refine ⟨rfl, fun s => ?_⟩
  rw [ohlc_corrector_intended_eq_contract, List.forall_iff_forall_mem]
  intro c hc
  obtain ⟨c0, _, rfl⟩ := List.mem_map.mp hc
  obtain ⟨h1, h2, h3, h4, h5⟩ := corrector_contract_establishes_invariant c0
  exact ⟨le_min h1 h3, max_le h4 h5⟩

/-- Claim C2: the corrector's contract.  As coded, both column repairs
raise on any series, even one the claim says they must repair (first two
conjuncts: a candle with `low > min(open, high, close)` and one with
`high < max(open, low, close)`); the repair the code's comments describe
(`ohlc_corrector_intended`) does satisfy the claimed per-candle contract
(third conjunct). -/
theorem c2_corrector_raises_instead_of_repairing :
    correct_lowcolumn_error [⟨2, 3, 5, 2⟩] = .error .invalidArgument ∧
    correct_highcolumn_error [⟨2, 1, 1, 2⟩] = .error .invalidArgument ∧
    ∀ s : List Candle, ohlc_corrector_intended s = s.map corrector_contract :=
  ⟨rfl, rfl, ohlc_corrector_intended_eq_contract⟩

/-- Claim C3: idempotence of the corrector.  The pass as coded raises on
any series (first conjunct: it cannot even be applied once), while the
intended pass is indeed idempotent (second conjunct). -/
theorem c3_corrector_cannot_run_but_intended_pass_is_idempotent :
    correct_lowcolumn_error [⟨1, 2, 3, 1⟩] = .error .invalidArgument ∧
    ∀ s : List Candle,
      ohlc_corrector_intended (ohlc_corrector_intended s) =
        ohlc_corrector_intended s := by
  refine ⟨rfl, fun s => ?_⟩
  rw [ohlc_corrector_intended_eq_contract, ohlc_corrector_intended_eq_contract,
    List.map_map]
  refine List.map_congr_left fun c _ => ?_
  simp only [Function.comp_apply]
  exact corrector_contract_idem c

/-! ## Claim theorem: distribution selection (C8) -/

/-- Claim C8: the step generator is claimed to select uniformly among
normal, Laplace and logistic.  `np.random.randint(1, 3)` only ever draws
`1` or `2`, so for every state of the random source the selection is normal
or Laplace, and the logistic entry of `__distribution_functions` is never
selected. -/
theorem c8_logistic_is_never_selected :
    (∀ u, distribution_choice u = some DistKind.normal ∨
      distribution_choice u = some DistKind.laplace) ∧
    ∀ u, distribution_choice u ≠ some DistKind.logistic := by
  have key : ∀ u, distribution_choice u = some DistKind.normal ∨
      distribution_choice u = some DistKind.laplace := by
    intro u
    unfold distribution_choice np_random_randint
    have h2 : u % (3 - 1) = 0 ∨ u % (3 - 1) = 1 := by omega
    rcases h2 with h | h <;> rw [h]
    · left; rfl
    · right; rfl
  refine ⟨key, fun u => ?_⟩
  rcases key u with h | h <;> simp [h]

/-! ## Claim theorem: candle connection (C4) -/

/-- The connection step keeps the number of rows. -/
theorem connect_length (sp : ℚ) (s : List Candle) :
    (connect_open_close_candles sp s).length = s.length := by
  cases s with
  | nil => rfl
  | cons a as =>
    simp [connect_open_close_candles, set_opens, shifted_close]

/-- Writing the open column leaves the close column unchanged. -/
theorem set_opens_close_getElem (s : List Candle) (os : List ℚ) (j : ℕ)
    (h1 : j < s.length) (h2 : j < os.length) :
    (set_opens s os)[j]?.map Candle.close = s[j]?.map Candle.close := by
  rw [set_opens, List.getElem?_zipWith', List.getElem?_eq_getElem h1,
    List.getElem?_eq_getElem h2]
  rfl

/-- Row `j` of the frame after the open column is overwritten carries the
`j`-th written value as its open. -/
theorem set_opens_open_getElem (s : List Candle) (os : List ℚ) (j : ℕ)
    (h1 : j < s.length) (h2 : j < os.length) :
    (set_opens s os)[j]?.map Candle.open_ = os[j]? := by
  rw [set_opens, List.getElem?_zipWith', List.getElem?_eq_getElem h1,
    List.getElem?_eq_getElem h2]
  rfl

/-- Claim C4: after the connection assignment, row 0 opens at the
configured start price and every later row opens at the previous row's
close. -/
theorem c4_connection_enforces_continuity (sp : ℚ) (s : List Candle)
    (h0 : 0 < s.length) :
    (connect_open_close_candles sp s).length = s.length ∧
    (connect_open_close_candles sp s)[0]?.map Candle.open_ = some sp ∧
    ∀ i, 0 < i → i < s.length →
      (connect_open_close_candles sp s)[i]?.map Candle.open_ =
        (connect_open_close_candles sp s)[i - 1]?.map Candle.close := by
  cases s with
  | nil => simp at h0
  | cons a as =>
    have hout : connect_open_close_candles sp (a :: as) =
        { a with open_ := sp } ::
          set_opens as ((a.close :: as.map Candle.close).dropLast) := by
      simp [connect_open_close_candles, set_opens, shifted_close]
    have hT : ∀ j, j < as.length →
        ((a.close :: as.map Candle.close).dropLast)[j]? =
          (a.close :: as.map Candle.close)[j]? := by
      intro j hj
      rw [List.dropLast_eq_take, List.getElem?_take_of_lt]
      simpa using hj
    have hTlen : ((a.close :: as.map Candle.close).dropLast).length =
        as.length := by simp
    refine ⟨?_, ?_, ?_⟩
    · rw [hout]; simp [set_opens]
    · rw [hout]; simp
    · intro i hi hilen
      obtain ⟨j, rfl⟩ : ∃ j, i = j + 1 := ⟨i - 1, by omega⟩
      have hj : j < as.length := by simpa using hilen
      rw [hout]
      rw [List.getElem?_cons_succ]
      rw [set_opens_open_getElem _ _ _ hj (by rw [hTlen]; exact hj)]
      rw [hT j hj]
      cases j with
      | zero => simp
      | succ k =>
        have hk : k < as.length := by omega
        simp only [Nat.add_sub_cancel, List.getElem?_cons_succ]
        rw [set_opens_close_getElem _ _ _ hk (by rw [hTlen]; exact hk)]
        rw [List.getElem?_map]

/-- Witness for C4 at a concrete two-candle series. -/
theorem c4_connection_enforces_continuity_witness :
    (connect_open_close_candles 5 [⟨1, 2, 0, 1⟩, ⟨2, 3, 1, 2⟩]).length = 2 ∧
    (connect_open_close_candles 5
      [⟨1, 2, 0, 1⟩, ⟨2, 3, 1, 2⟩])[0]?.map Candle.open_ = some 5 ∧
    (connect_open_close_candles 5
      [⟨1, 2, 0, 1⟩, ⟨2, 3, 1, 2⟩])[1]?.map Candle.open_ =
      (connect_open_close_candles 5
        [⟨1, 2, 0, 1⟩, ⟨2, 3, 1, 2⟩])[0]?.map Candle.close := by
  obtain ⟨h1, h2, h3⟩ :=
    c4_connection_enforces_continuity 5 [⟨1, 2, 0, 1⟩, ⟨2, 3, 1, 2⟩]
      (by decide)
  exact ⟨h1.trans rfl, h2, h3 1 (by decide) (by decide)⟩

/-! ## Helper lemmas: column extrema and rounding -/

/-- The seed is below a max-fold. -/
theorem le_foldl_max (x : ℚ) (xs : List ℚ) : x ≤ xs.foldl max x := by
  induction xs generalizing x with
  | nil => exact le_refl x
  | cons z zs ih =>
    rw [List.foldl_cons]
    exact le_trans (le_max_left x z) (ih (max x z))

/-- Every listed value is below a max-fold. -/
theorem mem_le_foldl_max (y x : ℚ) (xs : List ℚ) (h : y ∈ xs) :
    y ≤ xs.foldl max x := by
  induction xs generalizing x with
  | nil => cases h
  | cons z zs ih =>
    rw [List.foldl_cons]
    rcases List.mem_cons.mp h with rfl | hy
    · exact le_trans (le_max_right x y) (le_foldl_max _ zs)
    · exact ih _ hy

/-- Every value of a column is at most the column maximum. -/
theorem le_qmax (y : ℚ) (l : List ℚ) (h : y ∈ l) : y ≤ qmax l := by
  cases l with
  | nil => cases h
  | cons x xs =>
    rcases List.mem_cons.mp h with rfl | hy
    · exact le_foldl_max y xs
    · exact mem_le_foldl_max y x xs hy

/-- A min-fold is below its seed. -/
theorem foldl_min_le (x : ℚ) (xs : List ℚ) : xs.foldl min x ≤ x := by
  induction xs generalizing x with
  | nil => exact le_refl x
  | cons z zs ih =>
    rw [List.foldl_cons]
    exact le_trans (ih (min x z)) (min_le_left x z)

/-- A min-fold is below every listed value. -/
theorem foldl_min_le_mem (y x : ℚ) (xs : List ℚ) (h : y ∈ xs) :
    xs.foldl min x ≤ y := by
  induction xs generalizing x with
  | nil => cases h
  | cons z zs ih =>
    rw [List.foldl_cons]
    rcases List.mem_cons.mp h with rfl | hy
    · exact le_trans (foldl_min_le _ zs) (min_le_right x y)
    · exact ih _ hy

/-- The column minimum is at most every value of the column. -/
theorem qmin_le (y : ℚ) (l : List ℚ) (h : y ∈ l) : qmin l ≤ y := by
  cases l with
  | nil => cases h
  | cons x xs =>
    rcases List.mem_cons.mp h with rfl | hy
    · exact foldl_min_le y xs
    · exact foldl_min_le_mem y x xs hy

/-- A max-fold evaluates to the seed or to a listed value. -/
theorem foldl_max_mem (xs : List ℚ) (x : ℚ) : xs.foldl max x ∈ x :: xs := by
  induction xs generalizing x with
  | nil => exact List.mem_singleton.mpr rfl
  | cons z zs ih =>
    rw [List.foldl_cons]
    rcases List.mem_cons.mp (ih (max x z)) with h | h
    · rcases max_choice x z with hm | hm <;> rw [hm] at h ⊢ <;> simp [h]
    · exact List.mem_cons_of_mem _ (List.mem_cons_of_mem _ h)

/-- The column maximum of a non-empty column is one of its values. -/
theorem qmax_mem (l : List ℚ) (h : l ≠ []) : qmax l ∈ l := by
  cases l with
  | nil => exact absurd rfl h
  | cons x xs => exact foldl_max_mem xs x

/-- A min-fold evaluates to the seed or to a listed value. -/
theorem foldl_min_mem (xs : List ℚ) (x : ℚ) : xs.foldl min x ∈ x :: xs := by
  induction xs generalizing x with
  | nil => exact List.mem_singleton.mpr rfl
  | cons z zs ih =>
    rw [List.foldl_cons]
    rcases List.mem_cons.mp (ih (min x z)) with h | h
    · rcases min_choice x z with hm | hm <;> rw [hm] at h ⊢ <;> simp [h]
    · exact List.mem_cons_of_mem _ (List.mem_cons_of_mem _ h)

/-- The column minimum of a non-empty column is one of its values. -/
theorem qmin_mem (l : List ℚ) (h : l ≠ []) : qmin l ∈ l := by
  cases l with
  | nil => exact absurd rfl h
  | cons x xs => exact foldl_min_mem xs x

/-- The four values of a listed candle are in the value pool. -/
theorem fields_mem_ohlcValues (c : Candle) (s : List Candle) (h : c ∈ s) :
    c.open_ ∈ ohlcValues s ∧ c.high ∈ ohlcValues s ∧
    c.low ∈ ohlcValues s ∧ c.close ∈ ohlcValues s := by
  refine ⟨?_, ?_, ?_, ?_⟩ <;>
    · rw [ohlcValues, List.mem_flatMap]
      exact ⟨c, h, by simp⟩

/-- Round-half-to-even of a non-negative number is non-negative. -/
theorem roundHalfEven_nonneg (x : ℚ) (h : 0 ≤ x) : 0 ≤ roundHalfEven x := by
  have hfl : (0 : ℤ) ≤ ⌊x⌋ := Int.floor_nonneg.mpr h
  unfold roundHalfEven
  split_ifs <;> omega

/-- Round-half-to-even never crosses an integer upper bound. -/
theorem roundHalfEven_le (x : ℚ) (M : ℤ) (h : x ≤ M) :
    roundHalfEven x ≤ M := by
  have hfl : ⌊x⌋ ≤ M := by
    have := Int.floor_le_floor h
    rwa [Int.floor_intCast] at this
  have key : Int.fract x ≠ 0 → ⌊x⌋ < M := by
    intro hf
    refine lt_of_le_of_ne hfl fun heq => hf ?_
    have hxM : x = (M : ℚ) := by
      have h1 : (M : ℚ) ≤ x := by
        calc (M : ℚ) = (⌊x⌋ : ℚ) := by exact_mod_cast heq.symm
        _ ≤ x := Int.floor_le x
      exact le_antisymm h h1
    rw [hxM, Int.fract_intCast]
  unfold roundHalfEven
  split_ifs with h1 h2 h3
  · exact hfl
  · have := key (by positivity)
    omega
  · exact hfl
  · have h12 : (1 : ℚ)/2 ≤ Int.fract x := not_lt.mp h1
    have := key (by intro h0; rw [h0] at h12; norm_num at h12)
    omega

/-- `npRound` of a non-negative number is non-negative. -/
theorem npRound_nonneg (d : ℕ) (x : ℚ) (h : 0 ≤ x) : 0 ≤ npRound d x := by
  unfold npRound
  have := roundHalfEven_nonneg (x * 10 ^ d) (by positivity)
  positivity

/-- `npRound` never crosses a natural upper bound. -/
theorem npRound_le_natCast (d : ℕ) (x : ℚ) (k : ℕ) (h : x ≤ k) :
    npRound d x ≤ k := by
  unfold npRound
  rw [div_le_iff₀ (by positivity)]
  have harg : x * 10 ^ d ≤ ((k * 10 ^ d : ℤ) : ℚ) := by
    push_cast
    exact mul_le_mul_of_nonneg_right h (by positivity)
  have := roundHalfEven_le (x * 10 ^ d) (k * 10 ^ d) harg
  calc (roundHalfEven (x * 10 ^ d) : ℚ) ≤ ((k * 10 ^ d : ℤ) : ℚ) := by
        exact_mod_cast this
  _ = (k : ℚ) * 10 ^ d := by push_cast; ring

/-! ## Claim theorems: normalization (C7, C9) -/

/-- Counterexample for C7: on a constant series, `normalize_ohlc_data`
does not raise anything — no `DegenerateSeriesError` (or any exception)
exists anywhere in `random_ohlc.py` — it totally returns a series whose
every value is the NaN produced by the unguarded `0 / 0` division
(`none` in this model). -/
theorem c7_counterexample_silent_nan_instead_of_error :
    normalize_ohlc_data 10 [⟨100, 100, 100, 100⟩, ⟨100, 100, 100, 100⟩] =
      [⟨none, none, none, none⟩, ⟨none, none, none, none⟩] := by
  norm_num [normalize_ohlc_data, ohlcValues, qmax, qmin, pdiv, max_def,
    min_def]

/-- Claim C7 as amended: a constant base series is not detected;
normalization silently divides `0` by `0` and every open/high/low/close of
the result is NaN. -/
theorem c7_constant_series_normalizes_to_all_nan (m : ℕ) (v0 : ℚ)
    (s : List Candle) (hne : s ≠ [])
    (hconst : ∀ c ∈ s, c = ⟨v0, v0, v0, v0⟩) :
    normalize_ohlc_data m s = s.map fun _ => ⟨none, none, none, none⟩ := by
  have hvals : ∀ x ∈ ohlcValues s, x = v0 := by
    intro x hx
    rw [ohlcValues, List.mem_flatMap] at hx
    obtain ⟨c, hc, hxc⟩ := hx
    rw [hconst c hc] at hxc
    simp at hxc
    exact hxc
  have hvne : ohlcValues s ≠ [] := by
    cases s with
    | nil => exact absurd rfl hne
    | cons c cs => simp [ohlcValues]
  have hmx : qmax (ohlcValues s) = v0 := hvals _ (qmax_mem _ hvne)
  have hmn : qmin (ohlcValues s) = v0 := hvals _ (qmin_mem _ hvne)
  simp only [normalize_ohlc_data]
  rw [hmx, hmn, sub_self]
  simp [pdiv]

/-- Witness for C7 (amended form) at a concrete constant series. -/
theorem c7_constant_series_normalizes_to_all_nan_witness :
    normalize_ohlc_data 9 [⟨7, 7, 7, 7⟩] = [⟨none, none, none, none⟩] := by
  have := c7_constant_series_normalizes_to_all_nan 9 7 [⟨7, 7, 7, 7⟩]
    (by decide) (by decide)
  simpa using this

/-- Claim C9: after normalization of a non-degenerate series every
open/high/low/close value is an actual number (not NaN) lying in
`[0, m]`, where `m` is the multiplier drawn by
`np.random.randint(9, 999)`. -/
theorem c9_normalized_values_lie_in_zero_multiplier (m : ℕ)
    (s : List Candle) (hm9 : 9 ≤ m) (hm999 : m ≤ 998)
    (hdeg : qmin (ohlcValues s) < qmax (ohlcValues s)) :
    ∀ fc ∈ normalize_ohlc_data m s, ∃ a b c d : ℚ,
      fc = ⟨some a, some b, some c, some d⟩ ∧
      (0 ≤ a ∧ a ≤ m) ∧ (0 ≤ b ∧ b ≤ m) ∧
      (0 ≤ c ∧ c ≤ m) ∧ (0 ≤ d ∧ d ≤ m) := by
  intro fc hfc
  simp only [normalize_ohlc_data, List.mem_map] at hfc
  obtain ⟨c, hc, rfl⟩ := hfc
  have hsub : qmax (ohlcValues s) - qmin (ohlcValues s) ≠ 0 :=
    ne_of_gt (sub_pos.mpr hdeg)
  have key : ∀ v, v ∈ ohlcValues s →
      ∃ y : ℚ, (pdiv (v - qmin (ohlcValues s))
          (qmax (ohlcValues s) - qmin (ohlcValues s))).map
          (fun x => npRound 4 (x * (m : ℚ))) = some y ∧
        0 ≤ y ∧ y ≤ m := by
    intro v hv
    rw [pdiv, if_neg hsub]
    refine ⟨_, rfl, ?_, ?_⟩
    · refine npRound_nonneg _ _ ?_
      have h1 : 0 ≤ v - qmin (ohlcValues s) :=
        sub_nonneg.mpr (qmin_le v _ hv)
      have h2 : 0 < qmax (ohlcValues s) - qmin (ohlcValues s) :=
        sub_pos.mpr hdeg
      positivity
    · refine npRound_le_natCast _ _ _ ?_
      have hx1 : (v - qmin (ohlcValues s)) /
          (qmax (ohlcValues s) - qmin (ohlcValues s)) ≤ 1 := by
        rw [div_le_one (sub_pos.mpr hdeg)]
        exact sub_le_sub_right (le_qmax v _ hv) _
      have hx0 : 0 ≤ (v - qmin (ohlcValues s)) /
          (qmax (ohlcValues s) - qmin (ohlcValues s)) :=
        div_nonneg (sub_nonneg.mpr (qmin_le v _ hv))
          (le_of_lt (sub_pos.mpr hdeg))
      calc (v - qmin (ohlcValues s)) /
            (qmax (ohlcValues s) - qmin (ohlcValues s)) * (m : ℚ)
          ≤ 1 * (m : ℚ) := by
            exact mul_le_mul_of_nonneg_right hx1 (by positivity)
      _ = (m : ℚ) := one_mul _
  obtain ⟨ho, hh, hl, hcl⟩ := fields_mem_ohlcValues c s hc
  obtain ⟨a, ha, ha0, ham⟩ := key _ ho
  obtain ⟨b, hb, hb0, hbm⟩ := key _ hh
  obtain ⟨cc, hcc, hc0, hcm⟩ := key _ hl
  obtain ⟨d, hd, hd0, hdm⟩ := key _ hcl
  exact ⟨a, b, cc, d, by rw [ha, hb, hcc, hd],
    ⟨ha0, ham⟩, ⟨hb0, hbm⟩, ⟨hc0, hcm⟩, ⟨hd0, hdm⟩⟩

/-- Witness for C9 at a concrete two-valued series. -/
theorem c9_normalized_values_lie_in_zero_multiplier_witness :
    ∃ a b c d : ℚ,
      (⟨some 0, some 9, some 0, some 9⟩ : FCandle) =
        ⟨some a, some b, some c, some d⟩ ∧
      (0 ≤ a ∧ a ≤ (9 : ℕ)) ∧ (0 ≤ b ∧ b ≤ (9 : ℕ)) ∧
      (0 ≤ c ∧ c ≤ (9 : ℕ)) ∧ (0 ≤ d ∧ d ≤ (9 : ℕ)) := by
  have hmx : qmax (ohlcValues [(⟨1, 2, 1, 2⟩ : Candle)]) = 2 := by
    norm_num [qmax, ohlcValues, max_def]
  have hmn : qmin (ohlcValues [(⟨1, 2, 1, 2⟩ : Candle)]) = 1 := by
    norm_num [qmin, ohlcValues, min_def]
  have hf1 : Option.map (fun x => npRound 4 (x * ((9 : ℕ) : ℚ)))
      (pdiv (1 - 1) (2 - 1)) = some 0 := by
    rw [pdiv, if_neg (by norm_num)]
    simp only [Option.map_some']
    norm_num [npRound, roundHalfEven, Int.fract]
  have hf2 : Option.map (fun x => npRound 4 (x * ((9 : ℕ) : ℚ)))
      (pdiv (2 - 1) (2 - 1)) = some 9 := by
    rw [pdiv, if_neg (by norm_num)]
    simp only [Option.map_some']
    norm_num [npRound, roundHalfEven, Int.fract]
  have heq : normalize_ohlc_data 9 [⟨1, 2, 1, 2⟩] =
      [⟨some 0, some 9, some 0, some 9⟩] := by
    unfold normalize_ohlc_data
    rw [hmx, hmn]
    simp only [List.map_cons, List.map_nil]
    rw [hf1, hf2]
  have := c9_normalized_values_lie_in_zero_multiplier 9 [⟨1, 2, 1, 2⟩]
    (by norm_num) (by norm_num) (by rw [hmx, hmn]; norm_num)
    ⟨some 0, some 9, some 0, some 9⟩
    (by rw [heq]; exact List.mem_singleton.mpr rfl)
  exact this

/-! ## Helper lemmas: round-half-to-even is odd, volatile-splice head -/

/-- Round-half-to-even of an integer is that integer. -/
theorem roundHalfEven_intCast (n : ℤ) : roundHalfEven (n : ℚ) = n := by
  unfold roundHalfEven
  rw [Int.fract_intCast, Int.floor_intCast]
  norm_num

/-- Round-half-to-even commutes with negation (the tie-breaking rule picks
the even neighbour on both sides). -/
theorem roundHalfEven_neg (x : ℚ) : roundHalfEven (-x) = -roundHalfEven x := by
  by_cases hne : Int.fract x = 0
  · have hx : x = (⌊x⌋ : ℚ) := by
      have h := Int.floor_add_fract x
      rw [hne, add_zero] at h
      exact h.symm
    rw [hx, ← Int.cast_neg, roundHalfEven_intCast, roundHalfEven_intCast]
  · have hr0 : 0 ≤ Int.fract x := Int.fract_nonneg x
    have hr1 : Int.fract x < 1 := Int.fract_lt_one x
    have hrpos : 0 < Int.fract x := lt_of_le_of_ne hr0 (Ne.symm hne)
    have hfl := Int.floor_add_fract x
    have hfloorneg : ⌊-x⌋ = -⌊x⌋ - 1 := by
      rw [Int.floor_eq_iff]
      push_cast
      constructor <;> linarith
    have hfneg : Int.fract (-x) = 1 - Int.fract x := Int.fract_neg hne
    unfold roundHalfEven
    rw [hfneg, hfloorneg]
    rcases lt_trichotomy (Int.fract x) (1/2) with h | h | h
    · have hA : ¬ (1 - Int.fract x < 1/2) := by linarith
      have hB : (1 : ℚ)/2 < 1 - Int.fract x := by linarith
      rw [if_neg hA, if_pos hB, if_pos h]
      omega
    · have hA : ¬ (1 - Int.fract x < 1/2) := by rw [h]; norm_num
      have hB : ¬ ((1 : ℚ)/2 < 1 - Int.fract x) := by rw [h]; norm_num
      have hC : ¬ (Int.fract x < 1/2) := by rw [h]; norm_num
      have hD : ¬ ((1 : ℚ)/2 < Int.fract x) := by rw [h]; norm_num
      rw [if_neg hA, if_neg hB, if_neg hC, if_neg hD]
      split_ifs <;> omega
    · have hA : 1 - Int.fract x < 1/2 := by linarith
      have hC : ¬ (Int.fract x < 1/2) := by linarith
      rw [if_pos hA, if_neg hC, if_pos h]
      omega

/-- `npRound` commutes with negation. -/
theorem npRound_neg (d : ℕ) (x : ℚ) : npRound d (-x) = -npRound d x := by
  unfold npRound
  rw [show -x * (10 : ℚ) ^ d = -(x * 10 ^ d) by ring, roundHalfEven_neg]
  push_cast
  ring

/-- Rounding then taking the absolute value equals taking the absolute
value then rounding (so `np.abs(prices.round(6))` agrees with the spec's
reading `round(np.abs(prices), 6)`). -/
theorem abs_npRound (d : ℕ) (x : ℚ) : |npRound d x| = npRound d |x| := by
  rcases le_or_lt 0 x with h | h
  · rw [abs_of_nonneg h, abs_of_nonneg (npRound_nonneg d x h)]
  · have h0 : 0 ≤ npRound d (-x) := npRound_nonneg d (-x) (by linarith)
    have hneg : npRound d x ≤ 0 := by
      rw [npRound_neg] at h0
      linarith
    rw [abs_of_neg h, abs_of_nonpos hneg, npRound_neg]

/-- The first candle of a regenerated `1min` sub-path is the (rounded,
absolute) start price, whatever the drawn increments are. -/
theorem generate_random_df_1min_head (n : ℕ) (sp : ℚ) (steps : ℕ → ℚ)
    (d : Candle) :
    (generate_random_df_1min (n + 1) sp steps).getD 0 d =
      ⟨|npRound 6 sp|, |npRound 6 sp|, |npRound 6 sp|, |npRound 6 sp|⟩ := by
  simp [generate_random_df_1min, List.range_succ_eq_map, walk_tick, walk]

/-! ## Claim theorem: volatile sub-paths restart at start_price (C10) -/

/-- Claim C10: for a volatile range `[st, en]` inside any base series, the
spliced replacement begins at the run's configured `start_price` — row `st`
becomes the candle all four of whose fields are `|round(start_price, 6)|`,
independent of every value of the series being overwritten (the statement
holds for all `s`); the second conjunct identifies this with
`|start_price|` rounded to 6 decimals. -/
theorem c10_volatile_subpath_starts_at_start_price (sp : ℚ)
    (s : List Candle) (st en : ℕ) (steps : ℕ → ℚ)
    (h1 : st ≤ en) (h2 : en < s.length) :
    (create_volatile_periods sp [((st, en), steps)] s)[st]? =
      some ⟨|npRound 6 sp|, |npRound 6 sp|, |npRound 6 sp|,
        |npRound 6 sp|⟩ ∧
    |npRound 6 sp| = npRound 6 |sp| := by
  refine ⟨?_, abs_npRound 6 sp⟩
  have hres : create_volatile_periods sp [((st, en), steps)] s =
      loc_set_range s st en
        (generate_random_df_1min (en - st + 1) sp steps) := rfl
  rw [hres]
  have hstlen : st < s.length := lt_of_le_of_lt h1 h2
  have hlen : (loc_set_range s st en
      (generate_random_df_1min (en - st + 1) sp steps)).length =
      s.length := by
    simp [loc_set_range]
  have hlt : st < (loc_set_range s st en
      (generate_random_df_1min (en - st + 1) sp steps)).length := by
    rw [hlen]; exact hstlen
  rw [List.getElem?_eq_getElem hlt]
  congr 1
  have hget := List.get_mapIdx s (fun i c =>
    if st ≤ i ∧ i ≤ en then
      (generate_random_df_1min (en - st + 1) sp steps).getD (i - st) c
    else c) st hstlen
  refine Eq.trans hget ?_
  rw [if_pos ⟨le_refl st, h1⟩, Nat.sub_self]
  obtain ⟨k, hk⟩ : ∃ k, en - st + 1 = k + 1 := ⟨en - st, rfl⟩
  rw [hk, generate_random_df_1min_head]

/-- Witness for C10: splicing the range `[0, 1]` of a concrete two-candle
series with start price 2 puts the candle `⟨2, 2, 2, 2⟩` at row 0,
regardless of the prior values there. -/
theorem c10_volatile_subpath_starts_at_start_price_witness :
    (create_volatile_periods 2 [((0, 1), fun _ => 5)]
      [⟨1, 1, 1, 1⟩, ⟨3, 3, 3, 3⟩])[0]? = some ⟨2, 2, 2, 2⟩ := by
  have h := (c10_volatile_subpath_starts_at_start_price 2
    [⟨1, 1, 1, 1⟩, ⟨3, 3, 3, 3⟩] 0 1 (fun _ => 5)
    (by norm_num) (by norm_num)).1
  rw [h]
  norm_num [npRound, roundHalfEven, Int.fract]

/-! ## Helper lemmas: the resampling bin index -/

/-- On a uniform grid of step `g`, the bin labels from `a` to `b` are the
arithmetic progression `a, a + g, ..., b` (given enough fuel). -/
theorem gridIndex_uniform (g : ℕ) (hg : 0 < g) :
    ∀ (fuel a b : ℕ), g ∣ b - a → a ≤ b → b - a ≤ fuel →
      gridIndex (fun t => t + g) fuel a b =
        (List.range ((b - a) / g + 1)).map (fun i => a + g * i) := by
  intro fuel
  induction fuel with
  | zero =>
    intro a b hdvd hab hle
    have hab' : a = b := by omega
    subst hab'
    simp [gridIndex, List.range_succ]
  | succ n ih =>
    intro a b hdvd hab hle
    by_cases hlt : a < b
    · have hge : g ≤ b - a := Nat.le_of_dvd (by omega) hdvd
      simp only [gridIndex, if_pos hlt]
      have hdvd2 : g ∣ b - (a + g) := by
        have heq : b - (a + g) = (b - a) - g := by omega
        rw [heq]
        exact Nat.dvd_sub' hdvd dvd_rfl
      have hab2 : a + g ≤ b := by omega
      have hle2 : b - (a + g) ≤ n := by omega
      rw [ih (a + g) b hdvd2 hab2 hle2]
      have hq : (b - a) / g = (b - (a + g)) / g + 1 := by
        have h1 : b - a = (b - (a + g)) + g := by omega
        rw [h1, Nat.add_div_right _ hg]
      rw [hq]
      conv_rhs => rw [List.range_succ_eq_map, List.map_cons, List.map_map]
      congr 1
      refine List.map_congr_left fun i _ => ?_
      simp only [Function.comp_apply, Nat.succ_eq_add_one]
      ring
    · have hab' : a = b := by omega
      subst hab'
      simp [gridIndex, hlt, List.range_succ]

/-- The timestamps of a downsampled series: when the input's timestamps
form an arithmetic progression and the grid is uniform with step `g'`, the
output's timestamps run from the label of the first input timestamp to the
label of the last, in steps of `g'`. -/
theorem downsample_map_fst (G : Grid) (g' : ℕ) (hg' : 0 < g')
    (hnext : G.next = fun t => t + g')
    (s : TSeries) (k a g : ℕ)
    (hfst : s.map Prod.fst = (List.range (k + 1)).map (fun i => a + g * i))
    (A B : ℕ) (hA : G.label a = A) (hB : G.label (a + g * k) = B)
    (hdvd : g' ∣ B - A) (hAB : A ≤ B) :
    (downsample_ohlc_data G s).map Prod.fst =
      (List.range ((B - A) / g' + 1)).map (fun i => A + g' * i) := by
  cases s with
  | nil =>
    have : (0 : ℕ) = k + 1 := by
      have h := congrArg List.length hfst
      simp at h
    omega
  | cons p ps =>
    have hfst2 := hfst
    rw [List.map_cons, List.range_succ_eq_map, List.map_cons] at hfst2
    obtain ⟨hhead, -⟩ := List.cons_eq_cons.mp hfst2
    have hlastq : ((p :: ps).map Prod.fst).getLast? = some (a + g * k) := by
      rw [hfst]
      simp only [List.range_succ, List.map_append, List.map_cons,
        List.map_nil, List.getLast?_concat]
    have hlast : ((p :: ps).getLastD p).1 = a + g * k := by
      rw [List.getLastD_eq_getLast?]
      have hmap := List.getLast?_map Prod.fst (p :: ps)
      cases hq : (p :: ps).getLast? with
      | none => simp at hq
      | some q =>
        rw [hq, hlastq] at hmap
        simp only [Option.map_some'] at hmap
        simp only [Option.getD_some]
        exact (Option.some_inj.mp hmap).symm
    have hhead' : p.1 = a := by omega
    simp only [downsample_ohlc_data]
    rw [List.map_map]
    have hid : (Prod.fst ∘ fun lb =>
        ((lb : ℕ), aggBin (binMembers G (p :: ps) lb))) = fun lb => lb := by
      funext lb
      rfl
    rw [hid]
    rw [hhead', hlast, hA, hB, hnext]
    have hmapid : (gridIndex (fun t => t + g') (B - A) A B).map
        (fun lb => lb) = gridIndex (fun t => t + g') (B - A) A B :=
      List.map_id _
    rw [hmapid]
    exact gridIndex_uniform g' hg' (B - A) A B hdvd hAB (le_refl _)

/-- Every row of a downsampled series is the aggregation of the members of
its bin. -/
theorem downsample_row_eq_aggBin (G : Grid) (s : TSeries) (lb : ℕ)
    (oc : Option Candle) (h : (lb, oc) ∈ downsample_ohlc_data G s) :
    oc = aggBin (binMembers G s lb) := by
  cases s with
  | nil => simp [downsample_ohlc_data] at h
  | cons p ps =>
    simp only [downsample_ohlc_data] at h
    obtain ⟨lbq, hmem, heq⟩ := List.mem_map.mp h
    have h1 : lbq = lb := congrArg Prod.fst heq
    have h2 : aggBin (binMembers G (p :: ps) lbq) = oc := congrArg Prod.snd heq
    rw [← h2, h1]

/-- An aggregated candle takes its open from the first bin member, its high
as the maximum of the members' highs, its low as the minimum of the
members' lows and its close from the last member. -/
theorem aggBin_spec (bs : List Candle) (c : Candle) (h : aggBin bs = some c) :
    ∃ c0 rest, bs = c0 :: rest ∧
      c.open_ = c0.open_ ∧
      c.high ∈ bs.map Candle.high ∧ (∀ x ∈ bs.map Candle.high, x ≤ c.high) ∧
      c.low ∈ bs.map Candle.low ∧ (∀ x ∈ bs.map Candle.low, c.low ≤ x) ∧
      c.close = (bs.getLastD c0).close := by
  cases bs with
  | nil => simp [aggBin] at h
  | cons c0 rest =>
    refine ⟨c0, rest, rfl, ?_⟩
    simp only [aggBin] at h
    obtain rfl : (⟨c0.open_, qmax ((c0 :: rest).map Candle.high),
        qmin ((c0 :: rest).map Candle.low),
        ((c0 :: rest).getLastD c0).close⟩ : Candle) = c :=
      Option.some_inj.mp h
    refine ⟨rfl, ?_, ?_, ?_, ?_, rfl⟩
    · exact qmax_mem _ (by simp)
    · intro x hx
      exact le_qmax x _ hx
    · exact qmin_mem _ (by simp)
    · intro x hx
      exact qmin_le x _ hx

/-! ## Claim theorem: the resampling ladder (C6) -/

/-- Claim C6: every non-base entry of the finalized family is built by
downsampling the immediately preceding (finer) ladder entry (first
conjunct); every row of such an entry is the `agg_dict` aggregation of its
right-closed, right-labelled bin over the preceding entry (second
conjunct); and that aggregation takes first open, max high, min low, last
close (third conjunct). -/
theorem c6_each_entry_resampled_from_previous_ladder_entry :
    (∀ (base : TSeries) (tf : Timeframe), tf ≠ Timeframe.m1 →
      resample_timeframes base tf =
        downsample_ohlc_data (tfGrid tf)
          (resample_timeframes base (tfPrev tf))) ∧
    (∀ (base : TSeries) (tf : Timeframe) (lb : ℕ) (oc : Option Candle),
      (lb, oc) ∈ resample_timeframes base tf → tf ≠ Timeframe.m1 →
      oc = aggBin (binMembers (tfGrid tf)
        (resample_timeframes base (tfPrev tf)) lb)) ∧
    (∀ bs c, aggBin bs = some c → ∃ c0 rest, bs = c0 :: rest ∧
      c.open_ = c0.open_ ∧
      c.high ∈ bs.map Candle.high ∧ (∀ x ∈ bs.map Candle.high, x ≤ c.high) ∧
      c.low ∈ bs.map Candle.low ∧ (∀ x ∈ bs.map Candle.low, c.low ≤ x) ∧
      c.close = (bs.getLastD c0).close) := by
  refine ⟨?_, ?_, aggBin_spec⟩
  · intro base tf htf
    cases tf
    · exact absurd rfl htf
    all_goals rfl
  · intro base tf lb oc hmem htf
    have hstruct : resample_timeframes base tf =
        downsample_ohlc_data (tfGrid tf)
          (resample_timeframes base (tfPrev tf)) := by
      cases tf
      · exact absurd rfl htf
      all_goals rfl
    rw [hstruct] at hmem
    exact downsample_row_eq_aggBin _ _ _ _ hmem

/-- Witness for C6 at a one-row base series and the 5min entry. -/
theorem c6_each_entry_resampled_from_previous_ladder_entry_witness :
    resample_timeframes [(0, some ⟨1, 2, 0, 1⟩)] Timeframe.m5 =
      downsample_ohlc_data (tfGrid Timeframe.m5)
        (resample_timeframes [(0, some ⟨1, 2, 0, 1⟩)]
          (tfPrev Timeframe.m5)) ∧
    some (⟨1, 2, 0, 1⟩ : Candle) = aggBin (binMembers (tfGrid Timeframe.m5)
      (resample_timeframes [(0, some ⟨1, 2, 0, 1⟩)]
        (tfPrev Timeframe.m5)) 0) ∧
    ∃ c0 rest, ([⟨1, 2, 0, 1⟩] : List Candle) = c0 :: rest ∧
      (⟨1, 2, 0, 1⟩ : Candle).open_ = c0.open_ ∧
      (⟨1, 2, 0, 1⟩ : Candle).high ∈
        ([⟨1, 2, 0, 1⟩] : List Candle).map Candle.high ∧
      (∀ x ∈ ([⟨1, 2, 0, 1⟩] : List Candle).map Candle.high,
        x ≤ (⟨1, 2, 0, 1⟩ : Candle).high) ∧
      (⟨1, 2, 0, 1⟩ : Candle).low ∈
        ([⟨1, 2, 0, 1⟩] : List Candle).map Candle.low ∧
      (∀ x ∈ ([⟨1, 2, 0, 1⟩] : List Candle).map Candle.low,
        (⟨1, 2, 0, 1⟩ : Candle).low ≤ x) ∧
      (⟨1, 2, 0, 1⟩ : Candle).close =
        (([⟨1, 2, 0, 1⟩] : List Candle).getLastD c0).close := by
  obtain ⟨h1, h2, h3⟩ := c6_each_entry_resampled_from_previous_ladder_entry
  refine ⟨h1 [(0, some ⟨1, 2, 0, 1⟩)] Timeframe.m5 (by decide), ?_, ?_⟩
  · exact h2 [(0, some ⟨1, 2, 0, 1⟩)] Timeframe.m5 0 (some ⟨1, 2, 0, 1⟩)
      (List.mem_singleton.mpr rfl) (by decide)
  · exact h3 [⟨1, 2, 0, 1⟩] ⟨1, 2, 0, 1⟩ rfl

/-- The family entry of a non-base timeframe, as one resampling step from
its predecessor (the loop body of `resample_timeframes`). -/
theorem resample_timeframes_step (base : TSeries) (tf : Timeframe)
    (h : tf ≠ Timeframe.m1) :
    resample_timeframes base tf =
      downsample_ohlc_data (tfGrid tf)
        (resample_timeframes base (tfPrev tf)) := by
  cases tf
  · exact absurd rfl h
  all_goals rfl

/-- The base entry of the family is the 1-minute frame itself. -/
theorem resample_timeframes_m1 (base : TSeries) :
    resample_timeframes base Timeframe.m1 = base := rfl

/-! ## Helper lemmas: the 120-day index chain -/

/-- The base index of the 120-day run: minutes `0, 1, ..., 172799`. -/
theorem df_1min_120_fst : df_1min_120.map Prod.fst =
    (List.range (172799 + 1)).map (fun i => 0 + 1 * i) := by
  unfold df_1min_120 base_1min_index SECONDS_IN_1DAY
  rw [List.map_map]
  have hN : (120 * 86400 + 59) / 60 = 172799 + 1 := by norm_num
  rw [hN]
  refine List.map_congr_left fun i _ => ?_
  simp

/-- Timestamps of the 5min entry of the 120-day family. -/
theorem fam120_m5_fst :
    (resample_timeframes df_1min_120 Timeframe.m5).map Prod.fst =
      (List.range (34560 + 1)).map (fun i => 0 + 5 * i) := by
  have h := downsample_map_fst (tfGrid Timeframe.m5) 5 (by norm_num) rfl
    df_1min_120 172799 0 1 df_1min_120_fst
    0 172800 (by decide) (by decide) (by decide) (by norm_num)
  have hnum : (172800 - 0) / 5 + 1 = 34560 + 1 := by norm_num
  rw [hnum] at h
  rw [resample_timeframes_step df_1min_120 Timeframe.m5 (by decide)]
  rw [show tfPrev Timeframe.m5 = Timeframe.m1 from rfl]
  rw [resample_timeframes_m1]
  exact h

/-- Timestamps of the 15min entry of the 120-day family. -/
theorem fam120_m15_fst :
    (resample_timeframes df_1min_120 Timeframe.m15).map Prod.fst =
      (List.range (11520 + 1)).map (fun i => 0 + 15 * i) := by
  have h := downsample_map_fst (tfGrid Timeframe.m15) 15 (by norm_num) rfl
    (resample_timeframes df_1min_120 Timeframe.m5) 34560 0 5 fam120_m5_fst
    0 172800 (by decide) (by decide) (by decide) (by norm_num)
  have hnum : (172800 - 0) / 15 + 1 = 11520 + 1 := by norm_num
  rw [hnum] at h
  rw [resample_timeframes_step df_1min_120 Timeframe.m15 (by decide)]
  rw [show tfPrev Timeframe.m15 = Timeframe.m5 from rfl]
  exact h

/-- Timestamps of the 30min entry of the 120-day family. -/
theorem fam120_m30_fst :
    (resample_timeframes df_1min_120 Timeframe.m30).map Prod.fst =
      (List.range (5760 + 1)).map (fun i => 0 + 30 * i) := by
  have h := downsample_map_fst (tfGrid Timeframe.m30) 30 (by norm_num) rfl
    (resample_timeframes df_1min_120 Timeframe.m15) 11520 0 15 fam120_m15_fst
    0 172800 (by decide) (by decide) (by decide) (by norm_num)
  have hnum : (172800 - 0) / 30 + 1 = 5760 + 1 := by norm_num
  rw [hnum] at h
  rw [resample_timeframes_step df_1min_120 Timeframe.m30 (by decide)]
  rw [show tfPrev Timeframe.m30 = Timeframe.m15 from rfl]
  exact h

/-- Timestamps of the 1H entry of the 120-day family. -/
theorem fam120_h1_fst :
    (resample_timeframes df_1min_120 Timeframe.h1).map Prod.fst =
      (List.range (2880 + 1)).map (fun i => 0 + 60 * i) := by
  have h := downsample_map_fst (tfGrid Timeframe.h1) 60 (by norm_num) rfl
    (resample_timeframes df_1min_120 Timeframe.m30) 5760 0 30 fam120_m30_fst
    0 172800 (by decide) (by decide) (by decide) (by norm_num)
  have hnum : (172800 - 0) / 60 + 1 = 2880 + 1 := by norm_num
  rw [hnum] at h
  rw [resample_timeframes_step df_1min_120 Timeframe.h1 (by decide)]
  rw [show tfPrev Timeframe.h1 = Timeframe.m30 from rfl]
  exact h

/-- Timestamps of the 2H entry of the 120-day family. -/
theorem fam120_h2_fst :
    (resample_timeframes df_1min_120 Timeframe.h2).map Prod.fst =
      (List.range (1440 + 1)).map (fun i => 0 + 120 * i) := by
  have h := downsample_map_fst (tfGrid Timeframe.h2) 120 (by norm_num) rfl
    (resample_timeframes df_1min_120 Timeframe.h1) 2880 0 60 fam120_h1_fst
    0 172800 (by decide) (by decide) (by decide) (by norm_num)
  have hnum : (172800 - 0) / 120 + 1 = 1440 + 1 := by norm_num
  rw [hnum] at h
  rw [resample_timeframes_step df_1min_120 Timeframe.h2 (by decide)]
  rw [show tfPrev Timeframe.h2 = Timeframe.h1 from rfl]
  exact h

/-- Timestamps of the 4H entry of the 120-day family. -/
theorem fam120_h4_fst :
    (resample_timeframes df_1min_120 Timeframe.h4).map Prod.fst =
      (List.range (720 + 1)).map (fun i => 0 + 240 * i) := by
  have h := downsample_map_fst (tfGrid Timeframe.h4) 240 (by norm_num) rfl
    (resample_timeframes df_1min_120 Timeframe.h2) 1440 0 120 fam120_h2_fst
    0 172800 (by decide) (by decide) (by decide) (by norm_num)
  have hnum : (172800 - 0) / 240 + 1 = 720 + 1 := by norm_num
  rw [hnum] at h
  rw [resample_timeframes_step df_1min_120 Timeframe.h4 (by decide)]
  rw [show tfPrev Timeframe.h4 = Timeframe.h2 from rfl]
  exact h

/-- Timestamps of the 1D entry of the 120-day family: `121` daily labels,
midnight of Jan 1 2000 through midnight of Apr 30 2000 — the exact-midnight
first tick gets its own right-closed bin, so there is one label more than
there are days. -/
theorem fam120_d1_fst :
    (resample_timeframes df_1min_120 Timeframe.d1).map Prod.fst =
      (List.range (120 + 1)).map (fun i => 0 + 1440 * i) := by
  have h := downsample_map_fst (tfGrid Timeframe.d1) 1440 (by norm_num) rfl
    (resample_timeframes df_1min_120 Timeframe.h4) 720 0 240 fam120_h4_fst
    0 172800 (by decide) (by decide) (by decide) (by norm_num)
  have hnum : (172800 - 0) / 1440 + 1 = 120 + 1 := by norm_num
  rw [hnum] at h
  rw [resample_timeframes_step df_1min_120 Timeframe.d1 (by decide)]
  rw [show tfPrev Timeframe.d1 = Timeframe.h4 from rfl]
  exact h

/-- Timestamps of the 3D entry of the 120-day family. -/
theorem fam120_d3_fst :
    (resample_timeframes df_1min_120 Timeframe.d3).map Prod.fst =
      (List.range (40 + 1)).map (fun i => 0 + 4320 * i) := by
  have h := downsample_map_fst (tfGrid Timeframe.d3) 4320 (by norm_num) rfl
    (resample_timeframes df_1min_120 Timeframe.d1) 120 0 1440 fam120_d1_fst
    0 172800 (by decide) (by decide) (by decide) (by norm_num)
  have hnum : (172800 - 0) / 4320 + 1 = 40 + 1 := by norm_num
  rw [hnum] at h
  rw [resample_timeframes_step df_1min_120 Timeframe.d3 (by decide)]
  rw [show tfPrev Timeframe.d3 = Timeframe.d1 from rfl]
  exact h

/-- Timestamps of the 1W entry of the 120-day family: `18` weekly labels,
Sunday Jan 2 2000 through Sunday Apr 30 2000. -/
theorem fam120_w1_fst :
    (resample_timeframes df_1min_120 Timeframe.w1).map Prod.fst =
      (List.range (17 + 1)).map (fun i => 1440 + 10080 * i) := by
  have h := downsample_map_fst (tfGrid Timeframe.w1) 10080 (by norm_num) rfl
    (resample_timeframes df_1min_120 Timeframe.d3) 40 0 4320 fam120_d3_fst
    1440 172800 (by decide) (by decide) (by decide) (by norm_num)
  have hnum : (172800 - 1440) / 10080 + 1 = 17 + 1 := by norm_num
  rw [hnum] at h
  rw [resample_timeframes_step df_1min_120 Timeframe.w1 (by decide)]
  rw [show tfPrev Timeframe.w1 = Timeframe.d3 from rfl]
  exact h


/-- The base 1-minute series of a 120-day run has `172800 = 120 * 1440`
candles. -/
theorem df_1min_120_length : df_1min_120.length = 172800 := by
  unfold df_1min_120 base_1min_index SECONDS_IN_1DAY
  rw [List.length_map, List.length_range]

/-- The 1D entry of the 120-day family has 121 rows. -/
theorem fam120_d1_length :
    (resample_timeframes df_1min_120 Timeframe.d1).length = 121 := by
  have h := congrArg List.length fam120_d1_fst
  rw [List.length_map, List.length_map, List.length_range] at h
  omega

/-- The 1W entry of the 120-day family has 18 rows. -/
theorem fam120_w1_length :
    (resample_timeframes df_1min_120 Timeframe.w1).length = 18 := by
  have h := congrArg List.length fam120_w1_fst
  rw [List.length_map, List.length_map, List.length_range] at h
  omega

/-! ## Claim theorems: series lengths at total_days = 120 (C5) -/

/-- Counterexample for C5: with `total_days = 120` the base series does
have `120 * 1440` candles, but the right-closed/right-labelled resampling
chain gives the 1D entry 121 candles (not 120) and the 1W entry 18 candles
(not `120 // 7 = 17`): the first midnight tick receives a bin of its own,
adding one leading label at every calendar level. -/
theorem c5_counterexample_1d_and_1w_lengths :
    ¬ (df_1min_120.length = 120 * 1440 ∧
      (resample_timeframes df_1min_120 Timeframe.d1).length = 120 ∧
      (resample_timeframes df_1min_120 Timeframe.w1).length = 17) := by
  rintro ⟨h1, h2, h3⟩
  have hd := fam120_d1_length
  omega

/-- Claim C5 as amended: with `total_days = 120`, the base 1-minute series
has `120 * 1440` candles, the 1D entry has `121` candles and the 1W entry
has `18` candles. -/
theorem c5_amended_base_1d_1w_lengths :
    df_1min_120.length = 120 * 1440 ∧
    (resample_timeframes df_1min_120 Timeframe.d1).length = 121 ∧
    (resample_timeframes df_1min_120 Timeframe.w1).length = 18 := by
  refine ⟨?_, fam120_d1_length, fam120_w1_length⟩
  rw [df_1min_120_length]

/-- Witness for C8 at a concrete random-source state. -/
theorem c8_logistic_is_never_selected_witness :
    distribution_choice 5 ≠ some DistKind.logistic :=
  c8_logistic_is_never_selected.2 5
